import Mathlib

/-!
Verification of `src/gdrive_uploader.py` (class `GDriveUploader`).

The file shallowly embeds the pure core of the uploader:
* the progress-line scanners used in `upload_item`
  (`re.search` on `(\d+)%`, `([\d.]+\s*[KMG]?Bytes/s)`, `ETA\s+([\d\w:]+)`),
* the per-item transfer runner loop and its terminal update,
* the work enumeration (`_scan_directory_structure`, `_get_items_to_upload`,
  `_get_directory_size`) over an abstract filesystem tree,
* the credential rotator (`_get_next_account`),
* the summary / display computations (`_generate_stats_table`,
  `_generate_summary_table`, end-of-`upload` summary) and the exit behaviour
  of the `__main__` block.

Lines of subprocess output are modelled as `List Char`; relative paths
produced by `os.path.join` of path segments are modelled as `List String`
(segment lists), which is faithful as long as names contain no separator.
Python `int` arithmetic is modelled with `Nat`/`Int`; the float arithmetic of
`_generate_summary_table` (wall-clock seconds) is modelled with `ℚ`.
-/

/-! ## Progress-line parsing (upload_item, lines 459-469)

`re.search` tries every start position from the left; at a position the
pattern pieces match greedily.  For the three patterns used here greedy
matching with no backtracking is exact: each repetition class is disjoint
from the character that must follow it. -/

/-- Python `\s` whitespace class (ASCII). -/
def isPySpace (c : Char) : Bool :=
  c = ' ' || c = '\t' || c = '\n' || c = '\r' || c = '\x0b' || c = '\x0c'

/-- Python `\w` word class (ASCII model): letters, digits, underscore. -/
def isPyWord (c : Char) : Bool :=
  c.isAlpha || c.isDigit || c = '_'

/-- Numeric value of a list of decimal digit characters (`int(...)` on the
matched group of `(\d+)%`). -/
def digitsToNat (ds : List Char) : Nat :=
  ds.foldl (fun acc c => 10 * acc + (c.toNat - '0'.toNat)) 0

/-- Longest prefix of characters satisfying `p`, together with the rest. -/
def spanP (p : Char → Bool) : List Char → List Char × List Char
  | [] => ([], [])
  | c :: cs =>
    if p c then
      let (d, r) := spanP p cs
      (c :: d, r)
    else ([], c :: cs)

/-- Match `(\d+)%` anchored at the start of `l`: a maximal digit run
immediately followed by `%` (shorter runs cannot succeed since they would be
followed by a digit, not `%`). Returns the integer value of the group. -/
def percentAt (l : List Char) : Option Nat :=
  let (d, r) := spanP Char.isDigit l
  match d, r with
  | [], _ => none
  | _ :: _, '%' :: _ => some (digitsToNat d)
  | _ :: _, _ => none

/-- Leftmost match of `re.search(r"(\d+)%", line)`. -/
def findPercent : List Char → Option Nat
  | [] => none
  | c :: cs =>
    match percentAt (c :: cs) with
    | some v => some v
    | none => findPercent cs

/-- Does `pre` occur as a literal prefix of `l`?  Returns the rest. -/
def dropLit : List Char → List Char → Option (List Char)
  | [], r => some r
  | _ :: _, [] => none
  | p :: ps, c :: cs => if p = c then dropLit ps cs else none

/-- Match `([\d.]+\s*[KMG]?Bytes/s)` anchored at the start of `l`; returns
the matched group text.  Greedy `[\d.]+` then `\s*`, an optional `[KMG]`
(preferred when present, and if `Bytes/s` does not follow it no alternative
can match since `K`/`M`/`G` is not `B`), then the literal `Bytes/s`. -/
def speedAt (l : List Char) : Option (List Char) :=
  let (num, r1) := spanP (fun c => c.isDigit || c = '.') l
  match num with
  | [] => none
  | _ :: _ =>
    let (sp, r2) := spanP isPySpace r1
    match r2 with
    | c :: rest =>
      if c = 'K' || c = 'M' || c = 'G' then
        match dropLit "Bytes/s".data rest with
        | some _ => some (num ++ sp ++ c :: "Bytes/s".data)
        | none => none
      else
        match dropLit "Bytes/s".data r2 with
        | some _ => some (num ++ sp ++ "Bytes/s".data)
        | none => none
    | [] => none

/-- Leftmost match of `re.search(r"([\d.]+\s*[KMG]?Bytes/s)", line)`. -/
def findSpeed : List Char → Option (List Char)
  | [] => none
  | c :: cs =>
    match speedAt (c :: cs) with
    | some v => some v
    | none => findSpeed cs

/-- Match `ETA\s+([\d\w:]+)` anchored at the start of `l`; returns the group. -/
def etaAt (l : List Char) : Option (List Char) :=
  match dropLit "ETA".data l with
  | none => none
  | some r1 =>
    let (sp, r2) := spanP isPySpace r1
    match sp with
    | [] => none
    | _ :: _ =>
      let (tok, _) := spanP (fun c => c.isDigit || isPyWord c || c = ':') r2
      match tok with
      | [] => none
      | _ :: _ => some tok

/-- Leftmost match of `re.search(r"ETA\s+([\d\w:]+)", line)`. -/
def findEta : List Char → Option (List Char)
  | [] => none
  | c :: cs =>
    match etaAt (c :: cs) with
    | some v => some v
    | none => findEta cs

/-- Python `str.strip()` on the matched speed group. -/
def pyStrip (l : List Char) : List Char :=
  ((l.dropWhile isPySpace).reverse.dropWhile isPySpace).reverse

/-! ## Per-item stats records (upload, lines 280-290) -/

/-- Item kind tag from `_scan_directory_structure` (`'file'` / `'directory'`). -/
inductive ItemKind where
  | file
  | directory
deriving DecidableEq, Repr

/-- One entry of `self.upload_stats[rel_path]` (the dict created in
`upload()` before scheduling). -/
structure ItemStats where
  itype : ItemKind
  size : Nat
  transferred : Nat
  speed : List Char
  eta : List Char
  completed : Bool
  failed : Bool
  started : Bool
deriving DecidableEq, Repr

/-- Initial stats record for an item (`upload`, lines 281-290). -/
def initStats (itype : ItemKind) (size : Nat) : ItemStats :=
  { itype := itype, size := size, transferred := 0, speed := [], eta := [],
    completed := false, failed := false, started := false }

/-! ## Transfer runner (upload_item, lines 445-518) -/

/-- The runner's loop-local variables (`last_transferred`, `last_percent`,
`last_speed`, `last_eta`, lines 445-448). -/
structure RunnerLocal where
  lastTransferred : Nat
  lastPercent : Nat
  lastSpeed : List Char
  lastEta : List Char
deriving DecidableEq, Repr

/-- Initial loop-local state (lines 445-448). -/
def initLocal : RunnerLocal :=
  { lastTransferred := 0, lastPercent := 0, lastSpeed := [], lastEta := [] }

/-- The shared state a single runner touches: the item's stats record and
the `overall_transferred` counter (`Int`, as a Python int accumulating
possibly negative deltas). -/
structure RunnerShared where
  stats : ItemStats
  overall : Int
deriving DecidableEq, Repr

/-- One iteration of the parsing loop on one output line
(upload_item, lines 458-483): scan for the three optional signals, keep the
previous value when a signal is absent, recompute
`transferred_bytes = size * last_percent // 100`, apply
`delta = transferred_bytes - last_transferred` to `overall_transferred`, and
overwrite the item's `transferred`/`speed`/`eta` fields. -/
def lineStep (size : Nat) (s : RunnerLocal × RunnerShared) (line : List Char) :
    RunnerLocal × RunnerShared :=
  let st := s.1
  let sh := s.2
  let p := (findPercent line).getD st.lastPercent
  let sp := match findSpeed line with
    | some m => pyStrip m
    | none => st.lastSpeed
  let et := match findEta line with
    | some m => pyStrip m
    | none => st.lastEta
  let tb := size * p / 100
  let delta : Int := (tb : Int) - (st.lastTransferred : Int)
  (⟨tb, p, sp, et⟩,
   ⟨{ sh.stats with transferred := tb, speed := sp, eta := et },
     sh.overall + delta⟩)

/-- The whole parsing loop over the sequence of lines the reader thread
delivered (upload_item, lines 450-483). -/
def parsingLoop (size : Nat) (s : RunnerLocal × RunnerShared)
    (lines : List (List Char)) : RunnerLocal × RunnerShared :=
  lines.foldl (lineStep size) s

/-- How one `upload_item` invocation ends: the subprocess exited with a
code after emitting `lines`, or an exception was raised while launching or
reading, after `lines` had already been processed. -/
inductive RunOutcome where
  | exited (code : Int) (lines : List (List Char))
  | raised (lines : List (List Char))
deriving DecidableEq, Repr

/-- The terminal update (upload_item, lines 487-518).  Exit code 0: add the
reconciliation delta `size - last_transferred` to `overall_transferred`,
pin `transferred` to `size`, set `completed`.  Non-zero exit or exception:
set `failed`.  Returns the updated shared state. -/
def finalUpdate (size : Nat) (outcome : RunOutcome) (st : RunnerLocal)
    (sh : RunnerShared) : RunnerShared :=
  match outcome with
  | .exited code _ =>
    if code = 0 then
      ⟨{ sh.stats with
          transferred := size
          speed := "Done".data
          eta := []
          completed := true },
        sh.overall + ((size : Int) - (st.lastTransferred : Int))⟩
    else
      ⟨{ sh.stats with speed := "Failed".data, failed := true }, sh.overall⟩
  | .raised _ =>
    ⟨{ sh.stats with speed := "Error".data, failed := true }, sh.overall⟩

/-- The lines processed before the terminal update. -/
def RunOutcome.lines : RunOutcome → List (List Char)
  | .exited _ ls => ls
  | .raised ls => ls

/-- One whole `upload_item` run over an item of size `size`, starting from
shared state `sh₀`: mark started, run the parsing loop, apply the terminal
update. -/
def uploadItem (size : Nat) (outcome : RunOutcome) (sh₀ : RunnerShared) :
    RunnerShared :=
  let shStarted : RunnerShared := ⟨{ sh₀.stats with started := true }, sh₀.overall⟩
  let r := parsingLoop size (initLocal, shStarted) outcome.lines
  finalUpdate size outcome r.1 r.2

/-- Operations `upload_item` performs on `self.active_uploads` for its item,
in order: `add` on entry (line 393), `remove` in the terminal update (line
509 on either exit code, line 517 in the exception handler). -/
inductive ActiveOp where
  | add
  | remove
deriving DecidableEq, Repr

/-- The trace of active-set operations for one item: all three terminal
paths of `upload_item` (exit 0, non-zero exit, exception) reach exactly one
`remove`, which is the last statement guarded by the lock on each path. -/
def activeTrace (outcome : RunOutcome) : List ActiveOp :=
  match outcome with
  | .exited code _ =>
    if code = 0 then [ActiveOp.add, ActiveOp.remove]
    else [ActiveOp.add, ActiveOp.remove]
  | .raised _ => [ActiveOp.add, ActiveOp.remove]

/-- All intermediate values of the item's stats record during one
`upload_item` run: initial, after `started := true`, after each processed
line, and after the terminal update. -/
def uploadItemStates (size : Nat) (outcome : RunOutcome) (sh₀ : RunnerShared) :
    List ItemStats :=
  let shStarted : RunnerShared := ⟨{ sh₀.stats with started := true }, sh₀.overall⟩
  let steps := (outcome.lines.scanl (lineStep size) (initLocal, shStarted)).map
    (fun s => s.2.stats)
  let r := parsingLoop size (initLocal, shStarted) outcome.lines
  sh₀.stats :: steps ++ [(finalUpdate size outcome r.1 r.2).stats]

/-! ## Work enumeration (_scan_directory_structure, _get_items_to_upload,
_get_directory_size, lines 110-158)

The source tree under `input_dir` is modelled as a finite tree: a node is a
regular file with a size, or a directory with an ordered list of named
children (the order `os.walk` reports).  Relative paths built by
`os.path.join` are modelled as segment lists. -/

/-- A filesystem node. -/
inductive FSEntry where
  | file (size : Nat)
  | dir (children : List (String × FSEntry))

mutual
/-- Model of `_get_directory_size`: `os.walk` over the node summing `os.path.getsize`
of every file underneath (each descendant file counted once). -/
def dirSize : FSEntry → Nat
  | .file s => s
  | .dir es => dirSizeChildren es

def dirSizeChildren : List (String × FSEntry) → Nat
  | [] => 0
  | (_, c) :: rest => dirSize c + dirSizeChildren rest
end

/-- Model of `os.path.getsize` on a path known to be a regular file. -/
def getsize : FSEntry → Nat
  | .file s => s
  | .dir _ => 0

/-- One tuple of `self.folder_structure`: `(item_type, full_path, rel_path)`,
with `full_path` standing for the filesystem node the absolute path points
at. -/
structure StructEntry where
  kind : ItemKind
  node : FSEntry
  relPath : List String

mutual
/-- Model of `_scan_directory_structure` from a directory whose path relative to
`input_dir` is `rel`: `os.walk` visits this directory first, appending a
`('directory', root, rel_path)` tuple when `rel_path` is non-empty (the root
itself is skipped) and then a `('file', ...)` tuple per regular file in it,
then recurses into each subdirectory in listed order. -/
def scanStructure (rel : List String) : FSEntry → List StructEntry
  | .file _ => []
  | .dir es =>
    (if rel = [] then [] else [⟨ItemKind.directory, .dir es, rel⟩])
      ++ (es.filterMap fun e =>
            match e.2 with
            | .file s => some ⟨ItemKind.file, .file s, rel ++ [e.1]⟩
            | .dir _ => none)
      ++ scanChildren rel es

def scanChildren (rel : List String) : List (String × FSEntry) → List StructEntry
  | [] => []
  | (n, c) :: rest =>
    (match c with
      | .dir _ => scanStructure (rel ++ [n]) c
      | .file _ => []) ++ scanChildren rel rest
end

/-- One tuple of the `items` list built by `_get_items_to_upload`:
`(item_type, full_path, rel_path, size)`. -/
structure UploadItem where
  kind : ItemKind
  node : FSEntry
  relPath : List String
  sizeBytes : Nat

/-- The item `_get_items_to_upload` builds from one structure tuple:
`os.path.getsize` gives a file's size, `_get_directory_size` a directory's. -/
def entryToItem (e : StructEntry) : UploadItem :=
  match e.kind with
  | .file => ⟨ItemKind.file, e.node, e.relPath, getsize e.node⟩
  | .directory => ⟨ItemKind.directory, e.node, e.relPath, dirSize e.node⟩

/-- Model of `_get_items_to_upload` (lines 131-149): iterate over
`folder_structure`, appending one item per tuple (`os.path.getsize` for a
file, `_get_directory_size` for a directory) while accumulating
`total_size += <that item's size>`. -/
def getItemsToUpload (root : FSEntry) : List UploadItem × Nat :=
  (scanStructure [] root).foldl
    (fun acc e =>
      match e.kind with
      | .file =>
        let fileSize := getsize e.node
        (acc.1 ++ [⟨ItemKind.file, e.node, e.relPath, fileSize⟩], acc.2 + fileSize)
      | .directory =>
        let dSize := dirSize e.node
        (acc.1 ++ [⟨ItemKind.directory, e.node, e.relPath, dSize⟩], acc.2 + dSize))
    ([], 0)

mutual
/-- Well-formedness of a source tree as a real filesystem guarantees it: no
two children of one directory share a name. -/
def wfFS : FSEntry → Bool
  | .file _ => true
  | .dir es => ((es.map Prod.fst).Nodup : Bool) && wfChildren es

def wfChildren : List (String × FSEntry) → Bool
  | [] => true
  | (_, c) :: rest => wfFS c && wfChildren rest
end

/-! ## Credential rotator (_get_next_account, lines 93-97) -/

/-- The rotator's state: `self.service_accounts` (fixed after construction,
non-empty by the check in `_get_service_accounts`) and
`self.current_account_index` (0 after construction). -/
structure Rotator where
  serviceAccounts : List String
  currentAccountIndex : Nat
deriving DecidableEq, Repr

/-- Model of `_get_next_account`: return `service_accounts[current_account_index]`,
then advance the index to `(index + 1) % len(service_accounts)`.  The list
index is modelled with `getD` (Python indexing never sees an out-of-range
index here because the index is always reduced mod the length and starts at
0 on a non-empty list). -/
def getNextAccount (r : Rotator) : String × Rotator :=
  (r.serviceAccounts.getD r.currentAccountIndex "",
   { r with currentAccountIndex :=
      (r.currentAccountIndex + 1) % r.serviceAccounts.length })

/-- The accounts handed out by `n` consecutive single-threaded
`_get_next_account` calls, with the final rotator state. -/
def nextCalls : Rotator → Nat → List String × Rotator
  | r, 0 => ([], r)
  | r, n + 1 =>
    let (a, r1) := getNextAccount r
    let (as, r2) := nextCalls r1 n
    (a :: as, r2)

/-! ## Display and summary computations (lines 183-185, 228-261, 345-355,
374-385) -/

/-- Per-item progress percentage in `_generate_stats_table` (line 185):
`min(100, int((transferred / size) * 100)) if size > 0 else 0`.  Python
float division followed by `int` truncation is modelled as the exact
rational floor. -/
def statsTablePercent (transferred size : Nat) : Nat :=
  if size > 0 then min 100 (transferred * 100 / size) else 0

/-- Per-active-upload percentage in the footer of `upload` (line 351), the
same guarded expression. -/
def activeFooterPercent (transferred size : Nat) : Nat :=
  if size > 0 then min 100 (transferred * 100 / size) else 0

/-- Overall progress percentage in `_generate_summary_table` (lines
233-235): 0 unless `total_size > 0`. -/
def summaryProgressPercent (overallTransferred totalSize : Nat) : Nat :=
  if totalSize > 0 then min 100 (overallTransferred * 100 / totalSize) else 0

/-- Throughput in `_generate_summary_table` (lines 238-242), bytes per
second: 0 unless `elapsed > 0`. -/
def summarySpeedBps (overallTransferred : Nat) (elapsed : ℚ) : ℚ :=
  if elapsed > 0 then (overallTransferred : ℚ) / elapsed else 0

/-- Value of `processed_percent` (line 251): 0 unless `file_count > 0`. -/
def processedPercent (processedFiles fileCount : Nat) : Nat :=
  if fileCount > 0 then processedFiles * 100 / fileCount else 0

/-- Two-digit zero-padded rendering used by `f"{int(hours):02d}"`. -/
def fmt2 (n : Nat) : String :=
  if n < 10 then "0" ++ toString n else toString n

/-- The ETA string of `_generate_summary_table` (lines 239-249): the
placeholder `-:--:--` unless `elapsed > 0`, `speed_bps > 0` and
`total_size > overall_transferred`; otherwise `HH:MM:SS` of
`remaining_bytes / speed_bps` (the `divmod` floors modelled on ℚ). -/
def summaryEta (overallTransferred totalSize : Nat) (elapsed : ℚ) : String :=
  if elapsed > 0 then
    let speedBps := (overallTransferred : ℚ) / elapsed
    if speedBps > 0 ∧ totalSize > overallTransferred then
      let remainingSeconds : ℚ := ((totalSize - overallTransferred : Nat) : ℚ) / speedBps
      let hours : ℤ := ⌊remainingSeconds / 3600⌋
      let rem : ℚ := remainingSeconds - 3600 * hours
      let minutes : ℤ := ⌊rem / 60⌋
      let seconds : ℚ := rem - 60 * minutes
      fmt2 hours.toNat ++ ":" ++ fmt2 minutes.toNat ++ ":" ++ fmt2 ⌊seconds⌋.toNat
    else "-:--:--"
  else "-:--:--"

/-- End-of-run summary of `upload` (lines 374-385): count the stats records
with `completed` set, report `<successful>/<total>`, and, when any item was
not successful, list the relative paths of every record without `completed`. -/
structure RunSummary where
  successfulUploads : Nat
  totalItems : Nat
  failedListed : List (List String)
deriving DecidableEq, Repr

/-- Build the summary from the final `upload_stats` table (association list
`rel_path ↦ stats` in item order); the failed list is printed only when
`failed_uploads > 0`. -/
def uploadSummary (stats : List (List String × ItemStats)) : RunSummary :=
  let successful := (stats.filter fun p => p.2.completed).length
  { successfulUploads := successful
    totalItems := stats.length
    failedListed :=
      if stats.length - successful > 0 then
        (stats.filter fun p => !p.2.completed).map Prod.fst
      else [] }

/-! ## Exit behaviour of the `__main__` block (lines 520-544)

`GDriveUploader(...)` is constructed *outside* the `try`, so the
`FileNotFoundError`s raised by `_find_rclone` / `_get_service_accounts`
propagate uncaught and the interpreter exits with status 1.  Everything
raised inside `uploader.upload()` — including enumeration errors — is
caught by `except KeyboardInterrupt` / `except Exception`, which only print
a message, so the script falls off the end and exits with status 0. -/

/-- How one invocation of the script ends. -/
inductive RunEvent where
  /-- A `FileNotFoundError` from `__init__` (no rclone, or no service
  accounts): raised at line 530, outside the `try`. -/
  | constructorError
  /-- An exception raised while enumerating items inside `upload()`
  (e.g. an unreadable source root): reaches `except Exception` (line 542). -/
  | enumerationError
  /-- Any other exception escaping `upload()`: reaches `except Exception`. -/
  | fatalError
  /-- A `KeyboardInterrupt`: reaches `except KeyboardInterrupt` (line 540). -/
  | interrupted
  /-- Case where `upload()` returned normally (its summary printed, whatever the
  per-item failure count). -/
  | finished (summary : RunSummary)
deriving DecidableEq, Repr

/-- The process exit status for each way the run can end.  The handlers at
lines 540-544 print and return, so every handled path exits 0; only the
uncaught constructor error makes the interpreter exit 1. -/
def mainExitCode : RunEvent → Nat
  | .constructorError => 1
  | .enumerationError => 0
  | .fatalError => 0
  | .interrupted => 0
  | .finished _ => 0

/-- Relation restored by every loop iteration: the shared record mirrors the
loop-local values, and `last_transferred` is the floored estimate of the
last parsed percentage. -/
def runnerInv (size : Nat) (s : RunnerLocal × RunnerShared) : Prop :=
  s.1.lastTransferred = size * s.1.lastPercent / 100 ∧
  s.2.stats.transferred = s.1.lastTransferred ∧
  s.2.stats.speed = s.1.lastSpeed ∧
  s.2.stats.eta = s.1.lastEta

/-- Is a list of byte counts non-decreasing from one entry to the next? -/
def nondecreasingList : List Nat → Bool
  | [] => true
  | [_] => true
  | a :: b :: r => if a ≤ b then nondecreasingList (b :: r) else false

/-! ## Helper lemmas about the parsing loop -/

theorem lineStep_lastTransferred (size : Nat) (s : RunnerLocal × RunnerShared)
    (l : List Char) :
    (lineStep size s l).1.lastTransferred =
      size * ((findPercent l).getD s.1.lastPercent) / 100 := rfl

theorem lineStep_overall (size : Nat) (s : RunnerLocal × RunnerShared)
    (l : List Char) :
    (lineStep size s l).2.overall =
      s.2.overall + (((size * ((findPercent l).getD s.1.lastPercent) / 100 : Nat) : Int)
        - (s.1.lastTransferred : Int)) := rfl

/-- The loop deltas telescope: over any line sequence the change of
`overall_transferred` equals the change of `last_transferred`. -/
theorem parsingLoop_overall (size : Nat) :
    ∀ (lines : List (List Char)) (s : RunnerLocal × RunnerShared),
      (parsingLoop size s lines).2.overall =
        s.2.overall + (((parsingLoop size s lines).1.lastTransferred : Int)
          - (s.1.lastTransferred : Int)) := by
  intro lines
  induction lines with
  | nil => intro s; simp [parsingLoop]
  | cons l ls ih =>
    intro s
    have h1 : parsingLoop size s (l :: ls) = parsingLoop size (lineStep size s l) ls := rfl
    rw [h1, ih (lineStep size s l), lineStep_overall, lineStep_lastTransferred]
    ring

/-! ## C1: success reconciliation -/

/-- C1: when the external copy process exits with code 0 the runner applies
one final delta `size - last_transferred` to `overall_transferred`, pins the
item's `transferred` to `size` and marks it completed; consequently the
item's transferred bytes equal its size and the item contributed exactly
`size` to `overall_transferred`, whatever the intermediate percentage
rounding did. -/
theorem uploadItem_completed_reconciles (size : Nat) (lines : List (List Char))
    (sh₀ : RunnerShared) :
    (uploadItem size (.exited 0 lines) sh₀).stats.transferred = size ∧
    (uploadItem size (.exited 0 lines) sh₀).stats.completed = true ∧
    (uploadItem size (.exited 0 lines) sh₀).overall =
      (parsingLoop size (initLocal, ⟨{ sh₀.stats with started := true }, sh₀.overall⟩) lines).2.overall
        + ((size : Int)
          - ((parsingLoop size (initLocal, ⟨{ sh₀.stats with started := true }, sh₀.overall⟩) lines).1.lastTransferred : Int)) ∧
    (uploadItem size (.exited 0 lines) sh₀).overall = sh₀.overall + size := by
  refine ⟨rfl, rfl, rfl, ?_⟩
  show (uploadItem size (.exited 0 lines) sh₀).overall = sh₀.overall + size
  have h1 : (uploadItem size (.exited 0 lines) sh₀).overall =
      (parsingLoop size (initLocal, ⟨{ sh₀.stats with started := true }, sh₀.overall⟩) lines).2.overall
        + ((size : Int)
          - ((parsingLoop size (initLocal, ⟨{ sh₀.stats with started := true }, sh₀.overall⟩) lines).1.lastTransferred : Int)) := rfl
  rw [h1, parsingLoop_overall]
  simp [initLocal]

/-! ## C5: active-set removal -/

/-- C5: on each of the three terminal paths of `upload_item` (exit code 0,
non-zero exit code, exception while launching or reading) the item's
relative path is added to the active set once and removed from it exactly
once. -/
theorem activeSet_removed_once (outcome : RunOutcome) :
    (activeTrace outcome).count ActiveOp.remove = 1 ∧
    (activeTrace outcome).count ActiveOp.add = 1 := by
  cases outcome with
  | exited code lines =>
    by_cases h : code = 0 <;> simp [activeTrace, h]
  | raised lines => exact ⟨rfl, rfl⟩

/-! ## C4: round-robin rotator -/

/-- The accounts handed out by `m` consecutive calls, starting from a valid
index, are the list elements at indices `i, i+1, …, i+m-1` reduced mod the
length. -/
theorem nextCalls_getD (m : Nat) :
    ∀ (r : Rotator), r.serviceAccounts ≠ [] →
      r.currentAccountIndex < r.serviceAccounts.length →
      (nextCalls r m).1 = (List.range m).map
        (fun k => r.serviceAccounts.getD
          ((r.currentAccountIndex + k) % r.serviceAccounts.length) "") := by
  induction m with
  | zero => intro r _ _; rfl
  | succ n ih =>
    intro r hne hidx
    have hpos : 0 < r.serviceAccounts.length := List.length_pos.mpr hne
    have h2 : (getNextAccount r).2 =
        { r with currentAccountIndex :=
            (r.currentAccountIndex + 1) % r.serviceAccounts.length } := rfl
    have h3 := ih (getNextAccount r).2
      (by rw [h2]; exact hne)
      (by rw [h2]; exact Nat.mod_lt _ hpos)
    have hproj : (nextCalls r (n + 1)).1 =
        (getNextAccount r).1 :: (nextCalls (getNextAccount r).2 n).1 := rfl
    rw [hproj, h3, List.range_succ_eq_map, List.map_cons, List.map_map]
    congr 1
    · show r.serviceAccounts.getD r.currentAccountIndex "" = _
      rw [Nat.add_zero, Nat.mod_eq_of_lt hidx]
    · apply List.map_congr_left
      intro k _
      simp only [Function.comp_apply, h2]
      rw [Nat.mod_add_mod]
      congr 2
      omega

/-- C4: `_get_next_account` returns the element at the current index and
advances the index to `(i+1) mod N`; consequently `N` consecutive
single-threaded calls on a rotator over a non-empty account list return the
rotation of the list starting at the current index — each credential exactly
once, in list order, wrapping. -/
theorem rotator_round_robin (r : Rotator)
    (hne : r.serviceAccounts ≠ [])
    (hidx : r.currentAccountIndex < r.serviceAccounts.length) :
    (getNextAccount r).1 = r.serviceAccounts.getD r.currentAccountIndex "" ∧
    (getNextAccount r).2.serviceAccounts = r.serviceAccounts ∧
    (getNextAccount r).2.currentAccountIndex =
      (r.currentAccountIndex + 1) % r.serviceAccounts.length ∧
    (nextCalls r r.serviceAccounts.length).1 =
      r.serviceAccounts.rotate r.currentAccountIndex ∧
    ((nextCalls r r.serviceAccounts.length).1).Perm r.serviceAccounts := by
  have hrot : (nextCalls r r.serviceAccounts.length).1 =
      r.serviceAccounts.rotate r.currentAccountIndex := by
    rw [nextCalls_getD r.serviceAccounts.length r hne hidx]
    apply List.ext_getElem
    · simp
    · intro n h1 h2
      have hn : n < r.serviceAccounts.length := by simpa using h2
      have hmod : (r.currentAccountIndex + n) % r.serviceAccounts.length
          < r.serviceAccounts.length := Nat.mod_lt _ (List.length_pos.mpr hne)
      rw [List.getElem_map, List.getElem_range, List.getElem_rotate,
        List.getD_eq_getElem _ _ hmod]
      congr 1
      rw [Nat.add_comm]
  exact ⟨rfl, rfl, rfl, hrot, hrot ▸ (List.rotate_perm _ _)⟩

/-- Witness for C4 at a concrete rotator: three accounts, current index 1;
the three calls return `b, c, a`. -/
theorem rotator_round_robin_witness :
    (Rotator.mk ["a", "b", "c"] 1).serviceAccounts ≠ [] ∧
    (Rotator.mk ["a", "b", "c"] 1).currentAccountIndex
      < (Rotator.mk ["a", "b", "c"] 1).serviceAccounts.length ∧
    (nextCalls (Rotator.mk ["a", "b", "c"] 1)
      (Rotator.mk ["a", "b", "c"] 1).serviceAccounts.length).1 =
      (Rotator.mk ["a", "b", "c"] 1).serviceAccounts.rotate
        (Rotator.mk ["a", "b", "c"] 1).currentAccountIndex := by
  have h := rotator_round_robin (Rotator.mk ["a", "b", "c"] 1)
    (by decide) (by decide)
  exact ⟨by decide, by decide, h.2.2.2.1⟩

/-! ## Runner loop invariants -/

theorem lineStep_establishes_inv (size : Nat) (s : RunnerLocal × RunnerShared)
    (l : List Char) : runnerInv size (lineStep size s l) :=
  ⟨rfl, rfl, rfl, rfl⟩

theorem parsingLoop_inv (size : Nat) :
    ∀ (lines : List (List Char)) (s : RunnerLocal × RunnerShared),
      runnerInv size s → runnerInv size (parsingLoop size s lines) := by
  intro lines
  induction lines with
  | nil => intro s h; exact h
  | cons l ls ih =>
    intro s _
    exact ih (lineStep size s l) (lineStep_establishes_inv size s l)

/-- A line in which none of the three signals occurs leaves the loop state —
local values, the item's stats record, and `overall_transferred` — exactly
as it was. -/
theorem lineStep_noop (size : Nat) (s : RunnerLocal × RunnerShared) (l : List Char)
    (hinv : runnerInv size s)
    (hp : findPercent l = none) (hs : findSpeed l = none) (he : findEta l = none) :
    lineStep size s l = s := by
  obtain ⟨⟨lt, lp, lsp, lea⟩, ⟨⟨ki, sz, tr, spd, eta, cm, fl, sd⟩, ov⟩⟩ := s
  obtain ⟨h1, h2, h3, h4⟩ := hinv
  simp only at h1 h2 h3 h4
  subst h2 h3 h4
  simp [lineStep, hp, hs, he, h1]

/-! ## C7: unparseable lines are no-ops -/

/-- C7: if a line of subprocess output contains no integer percentage, no
rate-valued speed and no ETA token, processing it changes nothing: the
last-known percent/speed/ETA survive, the item's stats record is untouched
and the progress delta applied to `overall_transferred` is zero — the whole
loop state after `pre ++ [l]` equals the state after `pre` alone. -/
theorem unparseable_line_noop (size : Nat) (k : ItemKind) (ov : Int)
    (pre : List (List Char)) (l : List Char)
    (hp : findPercent l = none) (hs : findSpeed l = none) (he : findEta l = none) :
    parsingLoop size (initLocal, ⟨{ initStats k size with started := true }, ov⟩)
        (pre ++ [l]) =
      parsingLoop size (initLocal, ⟨{ initStats k size with started := true }, ov⟩)
        pre := by
  have hinv0 : runnerInv size
      (initLocal, ⟨{ initStats k size with started := true }, ov⟩) := by
    refine ⟨?_, rfl, rfl, rfl⟩
    simp [initLocal]
  have hinv := parsingLoop_inv size pre
    (initLocal, ⟨{ initStats k size with started := true }, ov⟩) hinv0
  have happ : parsingLoop size
      (initLocal, ⟨{ initStats k size with started := true }, ov⟩) (pre ++ [l]) =
      lineStep size (parsingLoop size
        (initLocal, ⟨{ initStats k size with started := true }, ov⟩) pre) l := by
    simp [parsingLoop]
  rw [happ, lineStep_noop size _ l hinv hp hs he]

/-- Witness for C7: a signal-free line after a `50%` line leaves everything
unchanged. -/
theorem unparseable_line_noop_witness :
    findPercent "hello world".data = none ∧
    findSpeed "hello world".data = none ∧
    findEta "hello world".data = none ∧
    parsingLoop 100 (initLocal, ⟨{ initStats ItemKind.file 100 with started := true }, 0⟩)
        (["50%".data, "hello world".data]) =
      parsingLoop 100 (initLocal, ⟨{ initStats ItemKind.file 100 with started := true }, 0⟩)
        (["50%".data]) := by
  refine ⟨by decide, by decide, by decide, ?_⟩
  exact unparseable_line_noop 100 ItemKind.file 0 ["50%".data]
    "hello world".data (by decide) (by decide) (by decide)

/-! ## C2: transferred-bytes monotonicity -/

/-- C2 counterexample: with an item of size 100 whose subprocess emits a
`50%` line and then a `10%` line (as happens when a total-percent line is
followed by a smaller per-file percent), the item's `transferred` value
runs 0, 0, 50, 10, 100 — it *decreases* from 50 to 10 while the item is
still active (the completed state is the last entry), so `transferredBytes`
is not monotonically non-decreasing across successive progress updates. -/
theorem progress_monotone_cex :
    ((uploadItemStates 100 (.exited 0 ["50%".data, "10%".data])
        ⟨initStats ItemKind.file 100, 0⟩).map ItemStats.transferred
      = [0, 0, 50, 10, 100]) ∧
    nondecreasingList
      (((uploadItemStates 100 (.exited 0 ["50%".data, "10%".data])
        ⟨initStats ItemKind.file 100, 0⟩).map ItemStats.transferred).dropLast)
      = false := by
  constructor
  · decide
  · decide

/-- C2 as amended: every active update writes
`floor(size * lastPercent / 100)` into the item's `transferred`; that value
is non-decreasing whenever the successively parsed percentages are
non-decreasing (the floored estimate is monotone in the percent), and once
the item completes its `transferred` is pinned to `size`. -/
theorem progress_floor_monotone (size : Nat) (s : RunnerLocal × RunnerShared)
    (l : List Char) (lines : List (List Char)) (sh₀ : RunnerShared)
    (hinv : s.2.stats.transferred = size * s.1.lastPercent / 100) :
    (lineStep size s l).2.stats.transferred
        = size * (lineStep size s l).1.lastPercent / 100 ∧
    (s.1.lastPercent ≤ (lineStep size s l).1.lastPercent →
      s.2.stats.transferred ≤ (lineStep size s l).2.stats.transferred) ∧
    (uploadItem size (.exited 0 lines) sh₀).stats.transferred = size := by
  refine ⟨rfl, ?_, rfl⟩
  intro hle
  rw [hinv]
  show size * s.1.lastPercent / 100
      ≤ size * ((findPercent l).getD s.1.lastPercent) / 100
  exact Nat.div_le_div_right (Nat.mul_le_mul_left size hle)

/-- Witness for the amended C2 at size 100, initial state, line `60%`. -/
theorem progress_floor_monotone_witness :
    ((initLocal, (⟨initStats ItemKind.file 100, 0⟩ : RunnerShared)).2.stats.transferred
      = 100 * (initLocal, (⟨initStats ItemKind.file 100, 0⟩ : RunnerShared)).1.lastPercent / 100) ∧
    (lineStep 100 (initLocal, ⟨initStats ItemKind.file 100, 0⟩) "60%".data).2.stats.transferred
      = 100 * (lineStep 100 (initLocal, ⟨initStats ItemKind.file 100, 0⟩) "60%".data).1.lastPercent / 100 := by
  refine ⟨by decide, ?_⟩
  exact (progress_floor_monotone 100 (initLocal, ⟨initStats ItemKind.file 100, 0⟩)
    "60%".data [] ⟨initStats ItemKind.file 100, 0⟩ (by decide)).1

/-! ## C9: completed and failed are mutually exclusive -/

theorem scanl_flags (size : Nat) :
    ∀ (lines : List (List Char)) (s₀ x : RunnerLocal × RunnerShared),
      x ∈ List.scanl (lineStep size) s₀ lines →
      x.2.stats.completed = s₀.2.stats.completed ∧
      x.2.stats.failed = s₀.2.stats.failed := by
  intro lines
  induction lines with
  | nil =>
    intro s₀ x hx
    simp [List.scanl] at hx
    subst hx
    exact ⟨rfl, rfl⟩
  | cons l ls ih =>
    intro s₀ x hx
    simp only [List.scanl, List.mem_cons] at hx
    rcases hx with hx | hx
    · subst hx; exact ⟨rfl, rfl⟩
    · exact ih (lineStep size s₀ l) x hx

theorem parsingLoop_flags (size : Nat) :
    ∀ (lines : List (List Char)) (s : RunnerLocal × RunnerShared),
      (parsingLoop size s lines).2.stats.completed = s.2.stats.completed ∧
      (parsingLoop size s lines).2.stats.failed = s.2.stats.failed := by
  intro lines
  induction lines with
  | nil => intro s; exact ⟨rfl, rfl⟩
  | cons l ls ih => intro s; exact ih (lineStep size s l)

/-- C9: every stats value an item passes through during one `upload_item`
run — initial record, after `started := true`, after each processed line,
and after the terminal update — has at most one of `completed`/`failed`
set: the flags start false, progress updates never touch them, and the
terminal update sets exactly one of them. -/
theorem flags_mutually_exclusive (size : Nat) (k : ItemKind) (ov : Int)
    (outcome : RunOutcome) (st : ItemStats)
    (hst : st ∈ uploadItemStates size outcome ⟨initStats k size, ov⟩) :
    ¬ (st.completed = true ∧ st.failed = true) := by
  unfold uploadItemStates at hst
  rcases List.mem_cons.mp hst with h0 | h1
  · subst h0; simp [initStats]
  rcases List.mem_append.mp h1 with h2 | h3
  · simp only [List.mem_map] at h2
    obtain ⟨x, hx, hxe⟩ := h2
    have h := scanl_flags size outcome.lines _ x hx
    rw [← hxe]
    intro hc
    rw [hc.2] at h
    simp [initStats] at h
  · have hfin := List.mem_singleton.mp h3
    subst hfin
    set r := parsingLoop size
      (initLocal, ⟨{ (initStats k size) with started := true }, ov⟩) outcome.lines with hr
    have hflags := parsingLoop_flags size outcome.lines
      (initLocal, ⟨{ (initStats k size) with started := true }, ov⟩)
    cases outcome with
    | exited code lines =>
      by_cases hc : code = 0
      · subst hc
        intro hcf
        have hf : (finalUpdate size (.exited 0 lines) r.1 r.2).stats.failed
            = r.2.stats.failed := rfl
        rw [hf] at hcf
        rw [hflags.2] at hcf
        simp [initStats] at hcf
      · intro hcf
        have hcm : (finalUpdate size (.exited code lines) r.1 r.2).stats.completed
            = r.2.stats.completed := by
          simp [finalUpdate, hc]
        rw [hcm] at hcf
        rw [hflags.1] at hcf
        simp [initStats] at hcf
    | raised lines =>
      intro hcf
      have hcm : (finalUpdate size (.raised lines) r.1 r.2).stats.completed
          = r.2.stats.completed := rfl
      rw [hcm] at hcf
      rw [hflags.1] at hcf
      simp [initStats] at hcf

/-- Witness for C9 at a concrete run: size 10, one line, non-zero exit. -/
theorem flags_mutually_exclusive_witness :
    ((uploadItemStates 10 (.exited 1 ["30%".data]) ⟨initStats ItemKind.file 10, 0⟩).getD 2
        (initStats ItemKind.file 10))
      ∈ uploadItemStates 10 (.exited 1 ["30%".data]) ⟨initStats ItemKind.file 10, 0⟩ ∧
    ¬ (((uploadItemStates 10 (.exited 1 ["30%".data]) ⟨initStats ItemKind.file 10, 0⟩).getD 2
        (initStats ItemKind.file 10)).completed = true ∧
       ((uploadItemStates 10 (.exited 1 ["30%".data]) ⟨initStats ItemKind.file 10, 0⟩).getD 2
        (initStats ItemKind.file 10)).failed = true) := by
  refine ⟨by decide, ?_⟩
  exact flags_mutually_exclusive 10 ItemKind.file 0 (.exited 1 ["30%".data]) _ (by decide)

/-! ## C10: derived display metrics are total and guarded -/

/-- C10: every derived display metric is guarded so no division by zero is
reachable: per-item and per-active-upload percentages are 0 when the size
is 0, the overall percentage is 0 when `total_size` is 0, the processed
percentage is 0 when `file_count` is 0, throughput is 0 when no time has
elapsed, and the ETA is the placeholder whenever no time elapsed, nothing
was transferred (zero throughput), or no bytes remain — so a run of only
zero-size items renders all metrics without error. -/
theorem display_metrics_guarded :
    (∀ t : Nat, statsTablePercent t 0 = 0) ∧
    (∀ t : Nat, activeFooterPercent t 0 = 0) ∧
    (∀ ov : Nat, summaryProgressPercent ov 0 = 0) ∧
    (∀ p : Nat, processedPercent p 0 = 0) ∧
    (∀ ov : Nat, summarySpeedBps ov 0 = 0) ∧
    (∀ ov total : Nat, summaryEta ov total 0 = "-:--:--") ∧
    (∀ total : Nat, ∀ e : ℚ, summaryEta 0 total e = "-:--:--") ∧
    (∀ ov total : Nat, ∀ e : ℚ, total ≤ ov → summaryEta ov total e = "-:--:--") := by
  refine ⟨?_, ?_, ?_, ?_, ?_, ?_, ?_, ?_⟩
  · intro t; simp [statsTablePercent]
  · intro t; simp [activeFooterPercent]
  · intro ov; simp [summaryProgressPercent]
  · intro p; simp [processedPercent]
  · intro ov; simp [summarySpeedBps]
  · intro ov total; simp [summaryEta]
  · intro total e
    unfold summaryEta
    split
    · simp
    · rfl
  · intro ov total e hle
    unfold summaryEta
    split
    · have hnot : ¬ ((ov : Nat) < total) := Nat.not_lt.mpr hle
      simp [hnot]
    · rfl

/-- Witness for C10: the guarded branch at concrete values, including a
zero-size run with elapsed time 1. -/
theorem display_metrics_guarded_witness :
    statsTablePercent 7 0 = 0 ∧ summaryEta 5 5 1 = "-:--:--" ∧ (5 : Nat) ≤ 5 := by
  refine ⟨display_metrics_guarded.1 7, ?_, by decide⟩
  exact display_metrics_guarded.2.2.2.2.2.2.2 5 5 1 (by decide)

/-! ## C6: exit status and failure summary -/

/-- C6 counterexample: an enumeration failure inside `upload()` is caught
by the blanket `except Exception` of the `__main__` block, which only
prints, so the interpreter exits with status 0 — not non-zero as claimed;
likewise a completed run with failed items exits 0. -/
theorem exit_status_cex :
    mainExitCode RunEvent.enumerationError = 0 ∧
    mainExitCode (RunEvent.finished ⟨0, 3, [[], ["a"], ["b"]]⟩) = 0 := by
  exact ⟨rfl, rfl⟩

/-- Splitting a list by a predicate preserves its length. -/
theorem length_filter_add_not {α : Type} (f : α → Bool) (l : List α) :
    (l.filter f).length + (l.filter fun a => !f a).length = l.length := by
  induction l with
  | nil => rfl
  | cons a t ih => by_cases h : f a <;> simp [List.filter_cons, h] <;> omega

/-- C6 as amended: only the configuration errors raised during
construction (missing rclone / missing service accounts) escape the
top-level handler and exit non-zero; enumeration failures, other fatal
errors during `upload()` and interrupts are caught, reported with a printed
message, and exit 0, as do runs with failed items — but whenever one or
more items failed the final summary reports `<succeeded>/<total>` and lists
exactly the relative paths of the non-completed items. -/
theorem exit_status_and_summary :
    mainExitCode RunEvent.constructorError ≠ 0 ∧
    (∀ e : RunEvent, e ≠ RunEvent.constructorError → mainExitCode e = 0) ∧
    (∀ stats : List (List String × ItemStats),
      (uploadSummary stats).totalItems = stats.length ∧
      (uploadSummary stats).successfulUploads
          + (stats.filter fun p => !p.2.completed).length = stats.length ∧
      ((stats.filter fun p => !p.2.completed).length > 0 →
        ∀ path : List String,
          path ∈ (uploadSummary stats).failedListed ↔
            ∃ st : ItemStats, (path, st) ∈ stats ∧ st.completed = false)) := by
  refine ⟨by decide, ?_, ?_⟩
  · intro e he
    cases e with
    | constructorError => exact absurd rfl he
    | enumerationError => rfl
    | fatalError => rfl
    | interrupted => rfl
    | finished s => rfl
  · intro stats
    refine ⟨rfl, ?_, ?_⟩
    · exact length_filter_add_not (fun p => p.2.completed) stats
    · intro hfail path
      have hguard : (uploadSummary stats).failedListed
          = (stats.filter fun p => !p.2.completed).map Prod.fst := by
        unfold uploadSummary
        simp only
        rw [if_pos]
        have h := length_filter_add_not (fun p => p.2.completed) stats
        omega
      rw [hguard]
      constructor
      · intro hp
        obtain ⟨q, hq, hqe⟩ := List.mem_map.mp hp
        have hq2 := List.mem_filter.mp hq
        refine ⟨q.2, ?_, ?_⟩
        · rw [← hqe]; exact hq2.1
        · simpa using hq2.2
      · rintro ⟨st, hmem, hcomp⟩
        refine List.mem_map.mpr ⟨(path, st), ?_, rfl⟩
        exact List.mem_filter.mpr ⟨hmem, by simp [hcomp]⟩

/-- Witness for C6 as amended: a two-item table with one failure. -/
theorem exit_status_and_summary_witness :
    mainExitCode RunEvent.enumerationError = 0 ∧
    (uploadSummary [(["a"], { initStats ItemKind.file 5 with completed := true }),
                    (["b"], { initStats ItemKind.file 7 with failed := true })]).failedListed
      = [["b"]] := by
  refine ⟨exit_status_and_summary.2.1 RunEvent.enumerationError (by decide), by decide⟩

/-! ## C3: totalSize is the sum of the item sizes -/

/-- The accumulation loop of `_get_items_to_upload`, characterised: it
appends `entryToItem` of each structure tuple and adds exactly those items'
sizes to the running total. -/
theorem itemsFold_eq (es : List StructEntry) :
    ∀ acc : List UploadItem × Nat,
      es.foldl
        (fun acc e =>
          match e.kind with
          | .file =>
            let fileSize := getsize e.node
            (acc.1 ++ [⟨ItemKind.file, e.node, e.relPath, fileSize⟩], acc.2 + fileSize)
          | .directory =>
            let dSize := dirSize e.node
            (acc.1 ++ [⟨ItemKind.directory, e.node, e.relPath, dSize⟩], acc.2 + dSize))
        acc
      = (acc.1 ++ es.map entryToItem,
         acc.2 + (es.map (fun e => (entryToItem e).sizeBytes)).sum) := by
  induction es with
  | nil => intro acc; simp
  | cons e t ih =>
    intro acc
    rw [List.foldl_cons, ih]
    cases hk : e.kind <;>
      simp [entryToItem, hk, List.append_assoc, List.singleton_append] <;>
      omega

/-- C3: the `totalSize` returned by `_get_items_to_upload` equals the sum of
the `sizeBytes` of the returned items, where a file item's size is the
file's size and a directory item's size is the recursive sum of its
descendant files' sizes (`_get_directory_size`), with no deduplication
between a directory item and the separate items of its descendants. -/
theorem totalSize_eq_sum_items (root : FSEntry) :
    (getItemsToUpload root).2 = ((getItemsToUpload root).1.map UploadItem.sizeBytes).sum ∧
    ∀ it ∈ (getItemsToUpload root).1,
      (it.kind = ItemKind.file → it.sizeBytes = getsize it.node) ∧
      (it.kind = ItemKind.directory → it.sizeBytes = dirSize it.node) := by
  have h := itemsFold_eq (scanStructure [] root) ([], 0)
  unfold getItemsToUpload
  rw [h]
  constructor
  · simp only [List.nil_append, List.map_map, Nat.zero_add]
    rfl
  · intro it hit
    simp only [List.nil_append, List.mem_map] at hit
    obtain ⟨e, _, hee⟩ := hit
    subst hee
    cases hk : e.kind <;> simp [entryToItem, hk]

/-- Witness for C3 at a concrete tree: a file of 10 bytes and a directory
holding a 20-byte file; the directory item declares 20 bytes and the total
50 double-counts them. -/
theorem totalSize_eq_sum_items_witness :
    (getItemsToUpload (FSEntry.dir [("a", FSEntry.file 10),
        ("d", FSEntry.dir [("b", FSEntry.file 20)])])).2 = 50 ∧
    (⟨ItemKind.directory, FSEntry.dir [("b", FSEntry.file 20)], ["d"], 20⟩ : UploadItem)
      ∈ (getItemsToUpload (FSEntry.dir [("a", FSEntry.file 10),
        ("d", FSEntry.dir [("b", FSEntry.file 20)])])).1 ∧
    (⟨ItemKind.directory, FSEntry.dir [("b", FSEntry.file 20)], ["d"], 20⟩ : UploadItem).sizeBytes
      = dirSize (⟨ItemKind.directory, FSEntry.dir [("b", FSEntry.file 20)], ["d"],
          20⟩ : UploadItem).node := by
  have h := totalSize_eq_sum_items (FSEntry.dir [("a", FSEntry.file 10),
    ("d", FSEntry.dir [("b", FSEntry.file 20)])])
  have hl : (getItemsToUpload (FSEntry.dir [("a", FSEntry.file 10),
      ("d", FSEntry.dir [("b", FSEntry.file 20)])])).1
      = [⟨ItemKind.file, FSEntry.file 10, ["a"], 10⟩,
         ⟨ItemKind.directory, FSEntry.dir [("b", FSEntry.file 20)], ["d"], 20⟩,
         ⟨ItemKind.file, FSEntry.file 20, ["d", "b"], 20⟩] := rfl
  have hmem : (⟨ItemKind.directory, FSEntry.dir [("b", FSEntry.file 20)], ["d"],
      20⟩ : UploadItem)
      ∈ (getItemsToUpload (FSEntry.dir [("a", FSEntry.file 10),
        ("d", FSEntry.dir [("b", FSEntry.file 20)])])).1 := by
    rw [hl]
    exact List.mem_cons_of_mem _ (List.mem_cons_self _ _)
  refine ⟨?_, hmem, ?_⟩
  · rw [h.1, hl]
    rfl
  · exact (h.2 _ hmem).2 rfl

/-! ## C8: relative paths are unique -/

/-- Structural induction for `FSEntry` exposing membership in the child
list. -/
theorem FSEntry.inductionMem {motive : FSEntry → Prop}
    (hfile : ∀ s, motive (.file s))
    (hdir : ∀ es, (∀ p ∈ es, motive p.2) → motive (.dir es)) :
    ∀ t, motive t
  | .file s => hfile s
  | .dir es => hdir es (fun p hp =>
      FSEntry.inductionMem hfile hdir p.2)
termination_by t => sizeOf t
decreasing_by
  have h1 : sizeOf p < sizeOf es := List.sizeOf_lt_of_mem hp
  obtain ⟨n, c⟩ := p
  simp at h1 ⊢
  omega

theorem scanStructure_file (rel : List String) (s : Nat) :
    scanStructure rel (.file s) = [] := rfl

theorem scanChildren_nil (rel : List String) : scanChildren rel [] = [] := rfl

theorem scanChildren_cons (rel : List String) (n : String) (c : FSEntry)
    (t : List (String × FSEntry)) :
    scanChildren rel ((n, c) :: t) =
      (match c with
        | FSEntry.dir _ => scanStructure (rel ++ [n]) c
        | FSEntry.file _ => []) ++ scanChildren rel t := rfl

theorem scanStructure_dir (rel : List String) (es : List (String × FSEntry)) :
    scanStructure rel (.dir es) =
      (if rel = [] then [] else [⟨ItemKind.directory, .dir es, rel⟩])
        ++ (es.filterMap fun e =>
              match e.2 with
              | .file s => some ⟨ItemKind.file, .file s, rel ++ [e.1]⟩
              | .dir _ => none)
        ++ scanChildren rel es := rfl

/-- Entries contributed by the recursive walk of the children all come from
the scan of one subdirectory child. -/
theorem mem_scanChildren (rel : List String) :
    ∀ (es : List (String × FSEntry)) (e : StructEntry),
      e ∈ scanChildren rel es →
      ∃ n c, (n, c) ∈ es ∧ e ∈ scanStructure (rel ++ [n]) c := by
  intro es
  induction es with
  | nil => intro e he; simp [scanChildren_nil] at he
  | cons p t ih =>
    obtain ⟨n, c⟩ := p
    intro e he
    rw [scanChildren_cons] at he
    rcases List.mem_append.mp he with h1 | h2
    · refine ⟨n, c, List.mem_cons_self _ _, ?_⟩
      cases c with
      | file s => simp at h1
      | dir es2 => exact h1
    · obtain ⟨m, c2, hmem, hscan⟩ := ih e h2
      exact ⟨m, c2, List.mem_cons_of_mem _ hmem, hscan⟩

/-- Every entry a scan from `rel` produces has `rel` as a prefix of its
relative path. -/
theorem scan_relPath_extends :
    ∀ (t : FSEntry) (rel : List String) (e : StructEntry),
      e ∈ scanStructure rel t → ∃ suf, e.relPath = rel ++ suf := by
  intro t
  induction t using FSEntry.inductionMem with
  | hfile s => intro rel e he; simp [scanStructure_file] at he
  | hdir es ih =>
    intro rel e he
    rw [scanStructure_dir] at he
    rcases List.mem_append.mp he with h1 | h2
    · rcases List.mem_append.mp h1 with h0 | hf
      · by_cases hrel : rel = []
        · simp [hrel] at h0
        · simp only [if_neg hrel, List.mem_singleton] at h0
          subst h0
          exact ⟨[], by simp⟩
      · obtain ⟨p, _, hpe⟩ := List.mem_filterMap.mp hf
        cases hc : p.2 with
        | file s2 =>
          rw [hc] at hpe
          simp only [Option.some_inj] at hpe
          subst hpe
          exact ⟨[p.1], rfl⟩
        | dir es2 => rw [hc] at hpe; simp at hpe
    · obtain ⟨n, c, hmem, hscan⟩ := mem_scanChildren rel es e h2
      obtain ⟨suf, hsuf⟩ := ih (n, c) hmem (rel ++ [n]) e hscan
      exact ⟨n :: suf, by rw [hsuf, List.append_assoc]; rfl⟩

theorem wfFS_dir (es : List (String × FSEntry)) :
    wfFS (.dir es) = (((es.map Prod.fst).Nodup : Bool) && wfChildren es) := rfl

theorem wfChildren_cons (p : String × FSEntry) (t : List (String × FSEntry)) :
    wfChildren (p :: t) = (wfFS p.2 && wfChildren t) := by
  obtain ⟨n, c⟩ := p
  rfl

theorem wfChildren_mem :
    ∀ (es : List (String × FSEntry)), wfChildren es = true →
      ∀ p ∈ es, wfFS p.2 = true := by
  intro es
  induction es with
  | nil => intro _ p hp; simp at hp
  | cons q t ih =>
    intro hwf p hp
    rw [wfChildren_cons, Bool.and_eq_true] at hwf
    rcases List.mem_cons.mp hp with h | h
    · subst h; exact hwf.1
    · exact ih hwf.2 p h

/-- With no duplicate sibling names, a name determines the child. -/
theorem keys_nodup_functional :
    ∀ (es : List (String × FSEntry)), (es.map Prod.fst).Nodup →
      ∀ (n : String) (a b : FSEntry), (n, a) ∈ es → (n, b) ∈ es → a = b := by
  intro es
  induction es with
  | nil => intro _ n a b ha _; simp at ha
  | cons q t ih =>
    obtain ⟨m, c⟩ := q
    intro hnd n a b ha hb
    rw [List.map_cons, List.nodup_cons] at hnd
    rcases List.mem_cons.mp ha with h1 | h1 <;> rcases List.mem_cons.mp hb with h2 | h2
    · rw [Prod.mk.injEq] at h1 h2
      rw [h1.2, h2.2]
    · exfalso
      rw [Prod.mk.injEq] at h1
      exact hnd.1 (h1.1 ▸ (List.mem_map.mpr ⟨(n, b), h2, rfl⟩))
    · exfalso
      rw [Prod.mk.injEq] at h2
      exact hnd.1 (h2.1 ▸ (List.mem_map.mpr ⟨(n, a), h1, rfl⟩))
    · exact ih hnd.2 n a b h1 h2

/-- The names of the file children form a sublist of all child names. -/
theorem fileNames_sublist :
    ∀ (es : List (String × FSEntry)),
      List.Sublist
        (es.filterMap fun e =>
          match e.2 with
          | FSEntry.file _ => some e.1
          | FSEntry.dir _ => none)
        (es.map Prod.fst) := by
  intro es
  induction es with
  | nil => simp
  | cons q t ih =>
    obtain ⟨n, c⟩ := q
    cases c with
    | file s =>
      simp only [List.filterMap_cons, List.map_cons]
      exact ih.cons₂ n
    | dir es2 =>
      simp only [List.filterMap_cons, List.map_cons]
      exact ih.cons n

/-- The relative paths of the file entries of one directory are `rel`
extended by the file names. -/
theorem filesPart_paths (rel : List String) :
    ∀ (es : List (String × FSEntry)),
      ((es.filterMap fun e =>
          match e.2 with
          | .file s => some (⟨ItemKind.file, .file s, rel ++ [e.1]⟩ : StructEntry)
          | .dir _ => none).map StructEntry.relPath)
        = (es.filterMap fun e =>
            match e.2 with
            | FSEntry.file _ => some e.1
            | FSEntry.dir _ => none).map (fun n => rel ++ [n]) := by
  intro es
  induction es with
  | nil => rfl
  | cons q t ih =>
    obtain ⟨n, c⟩ := q
    cases c with
    | file s => simp only [List.filterMap_cons, List.map_cons, ih]
    | dir es2 => simp only [List.filterMap_cons, ih]

/-- Paths coming out of the recursive walk of a directory's children are
distinct, given distinct sibling names, well-formed subtrees, and path
uniqueness inside each subtree. -/
theorem scanChildren_paths_nodup (rel : List String) :
    ∀ (es : List (String × FSEntry)),
      (∀ p ∈ es, wfFS p.2 = true → ∀ rel' : List String,
        ((scanStructure rel' p.2).map StructEntry.relPath).Nodup) →
      (es.map Prod.fst).Nodup → wfChildren es = true →
      ((scanChildren rel es).map StructEntry.relPath).Nodup := by
  intro es
  induction es with
  | nil => intro _ _ _; simp [scanChildren_nil]
  | cons q t ih =>
    obtain ⟨n, c⟩ := q
    intro hsub hkeys hwf
    rw [List.map_cons, List.nodup_cons] at hkeys
    rw [wfChildren_cons, Bool.and_eq_true] at hwf
    rw [scanChildren_cons, List.map_append]
    apply List.Nodup.append
    · cases c with
      | file s => simp
      | dir es2 =>
        exact hsub (n, .dir es2) (List.mem_cons_self _ _) hwf.1 (rel ++ [n])
    · exact ih (fun p hp => hsub p (List.mem_cons_of_mem _ hp)) hkeys.2 hwf.2
    · intro a ha hat
      obtain ⟨e1, he1, he1p⟩ := List.mem_map.mp ha
      obtain ⟨e2, he2, he2p⟩ := List.mem_map.mp hat
      have he1s : e1 ∈ scanStructure (rel ++ [n]) c := by
        cases c with
        | file s => simp at he1
        | dir es2 => exact he1
      obtain ⟨suf1, hsuf1⟩ := scan_relPath_extends c (rel ++ [n]) e1 he1s
      obtain ⟨m, c2, hm, he2s⟩ := mem_scanChildren rel t e2 he2
      obtain ⟨suf2, hsuf2⟩ := scan_relPath_extends c2 (rel ++ [m]) e2 he2s
      have heq : rel ++ n :: suf1 = rel ++ m :: suf2 := by
        have h1 : a = rel ++ n :: suf1 := by
          rw [← he1p, hsuf1, List.append_assoc]; rfl
        have h2 : a = rel ++ m :: suf2 := by
          rw [← he2p, hsuf2, List.append_assoc]; rfl
        rw [← h1, h2]
      have hnm : n = m := (List.cons.injEq _ _ _ _).mp
        (List.append_cancel_left heq) |>.1
      exact hkeys.1 (List.mem_map.mpr ⟨(m, c2), hm, hnm.symm⟩)

/-- In a well-formed tree no two entries of one `_scan_directory_structure`
walk share a relative path. -/
theorem scan_paths_nodup :
    ∀ (t : FSEntry), wfFS t = true → ∀ rel : List String,
      ((scanStructure rel t).map StructEntry.relPath).Nodup := by
  intro t
  induction t using FSEntry.inductionMem with
  | hfile s => intro _ rel; simp [scanStructure_file]
  | hdir es ih =>
    intro hwf rel
    rw [wfFS_dir, Bool.and_eq_true, decide_eq_true_eq] at hwf
    obtain ⟨hkeys, hch⟩ := hwf
    rw [scanStructure_dir, List.map_append, List.map_append,
      List.append_assoc]
    have hfiles : ((es.filterMap fun e =>
        match e.2 with
        | .file s => some (⟨ItemKind.file, .file s, rel ++ [e.1]⟩ : StructEntry)
        | .dir _ => none).map StructEntry.relPath).Nodup := by
      rw [filesPart_paths]
      refine List.Nodup.map ?_ ((fileNames_sublist es).nodup hkeys)
      intro n1 n2 h12
      have h2 := List.append_cancel_left h12
      simpa using h2
    have hchildren : ((scanChildren rel es).map StructEntry.relPath).Nodup :=
      scanChildren_paths_nodup rel es
        (fun p hp hw rel' => ih p hp hw rel') hkeys hch
    have hdisj : List.Disjoint
        ((es.filterMap fun e =>
          match e.2 with
          | .file s => some (⟨ItemKind.file, .file s, rel ++ [e.1]⟩ : StructEntry)
          | .dir _ => none).map StructEntry.relPath)
        ((scanChildren rel es).map StructEntry.relPath) := by
      intro a ha hat
      obtain ⟨e1, he1, he1p⟩ := List.mem_map.mp ha
      obtain ⟨p, hpmem, hpe⟩ := List.mem_filterMap.mp he1
      obtain ⟨e2, he2, he2p⟩ := List.mem_map.mp hat
      obtain ⟨m, c2, hm, he2s⟩ := mem_scanChildren rel es e2 he2
      obtain ⟨suf2, hsuf2⟩ := scan_relPath_extends c2 (rel ++ [m]) e2 he2s
      cases hc : p.2 with
      | dir es2 => rw [hc] at hpe; simp at hpe
      | file s =>
        rw [hc] at hpe
        simp only [Option.some_inj] at hpe
        have h1 : a = rel ++ [p.1] := by rw [← he1p, ← hpe]
        have h2 : a = rel ++ m :: suf2 := by
          rw [← he2p, hsuf2, List.append_assoc]; rfl
        have h12 : ([p.1] : List String) = m :: suf2 :=
          List.append_cancel_left (h1 ▸ h2)
        have hpm : p.1 = m := (List.cons.injEq _ _ _ _).mp h12 |>.1
        have hsome : c2 = FSEntry.file s := by
          refine (keys_nodup_functional es hkeys p.1 c2 (FSEntry.file s) ?_ ?_).symm ▸ rfl
          · rw [hpm]; exact hm
          · rw [← hc]; exact hpmem
        -- c2 is a subdirectory child: scanning a file yields nothing
        rw [hsome] at he2s
        simp [scanStructure_file] at he2s
    have hrest : (((es.filterMap fun e =>
        match e.2 with
        | .file s => some (⟨ItemKind.file, .file s, rel ++ [e.1]⟩ : StructEntry)
        | .dir _ => none).map StructEntry.relPath)
          ++ ((scanChildren rel es).map StructEntry.relPath)).Nodup :=
      hfiles.append hchildren hdisj
    refine List.Nodup.append ?_ hrest ?_
    · by_cases hrel : rel = [] <;> simp [hrel]
    · intro a ha hat
      by_cases hrel : rel = []
      · simp [hrel] at ha
      · simp only [if_neg hrel, List.map_cons, List.map_nil,
          List.mem_singleton] at ha
        rw [ha] at hat
        rcases List.mem_append.mp hat with h1 | h2
        · obtain ⟨e1, he1, he1p⟩ := List.mem_map.mp h1
          obtain ⟨p, hpmem, hpe⟩ := List.mem_filterMap.mp he1
          cases hc : p.2 with
          | dir es2 => rw [hc] at hpe; simp at hpe
          | file s =>
            rw [hc] at hpe
            simp only [Option.some_inj] at hpe
            rw [← hpe] at he1p
            have hcontra : rel ++ [p.1] = rel ++ [] := by
              rw [List.append_nil]; exact he1p
            simpa using List.append_cancel_left hcontra
        · obtain ⟨e2, he2, he2p⟩ := List.mem_map.mp h2
          obtain ⟨m, c2, hm, he2s⟩ := mem_scanChildren rel es e2 he2
          obtain ⟨suf2, hsuf2⟩ := scan_relPath_extends c2 (rel ++ [m]) e2 he2s
          have h0 : rel ++ ([] : List String) = rel ++ (m :: suf2) := by
            rw [List.append_nil]
            calc rel = e2.relPath := he2p.symm
              _ = rel ++ [m] ++ suf2 := hsuf2
              _ = rel ++ (m :: suf2) := by
                rw [List.append_assoc]
                rfl
          simpa using List.append_cancel_left h0

/-- C8: for a well-formed source tree (no two children of one directory
share a name, as on a real filesystem), no two items produced by one
enumeration share the same relative path. -/
theorem relPaths_unique (root : FSEntry) (h : wfFS root = true) :
    (((getItemsToUpload root).1).map UploadItem.relPath).Nodup := by
  have hfold := itemsFold_eq (scanStructure [] root) ([], 0)
  have hmap : ((getItemsToUpload root).1).map UploadItem.relPath
      = ((scanStructure [] root).map StructEntry.relPath) := by
    unfold getItemsToUpload
    rw [hfold]
    simp only [List.nil_append, List.map_map]
    apply List.map_congr_left
    intro e _
    cases hk : e.kind <;> simp [entryToItem, hk, Function.comp]
  rw [hmap]
  exact scan_paths_nodup root h []

/-- Witness for C8 at a concrete tree. -/
theorem relPaths_unique_witness :
    wfFS (FSEntry.dir [("a", FSEntry.file 10),
        ("d", FSEntry.dir [("b", FSEntry.file 20)])]) = true ∧
    (((getItemsToUpload (FSEntry.dir [("a", FSEntry.file 10),
        ("d", FSEntry.dir [("b", FSEntry.file 20)])])).1).map
          UploadItem.relPath).Nodup := by
  refine ⟨by decide, ?_⟩
  exact relPaths_unique (FSEntry.dir [("a", FSEntry.file 10),
    ("d", FSEntry.dir [("b", FSEntry.file 20)])]) (by decide)
